/-
Verification of the parallel-file-uploader core modules.

The TypeScript sources are shallowly embedded below:
* JS `Map` objects are modelled as insertion-ordered association lists
  (`SMap`), JS `Set` objects as duplicate-free insertion-ordered lists.
* File ids (uuid strings in the source) are modelled as naturals produced
  by a counter; keys are opaque to all the code involved.
* JS numbers that hold byte counts or part numbers are modelled as `Nat`
  (they are non-negative integers in every reachable state); arithmetic
  that can go negative in JS (`calculateUploadedSize`) is done in `Int`.
* The token-bucket limiter works with fractional token counts, so its
  state uses `Rat`; timestamps (`Date.now()`) are explicit parameters.
-/
import Mathlib

/-! ## Shared data model (src/type.ts) -/

/-- Upload status of a file (`UploadStepEnum`). -/
inductive UploadStepEnum where
  | beforeUpload | upload | complete | error | pause | waiting
deriving DecidableEq, Repr

/-- Status of a single chunk (`ChunkStatusEnum`). -/
inductive ChunkStatusEnum where
  | waiting | uploading | success | error | pause
deriving DecidableEq, Repr

/-- Error taxonomy (`ErrorType`). -/
inductive ErrorType where
  | NETWORK | FILE_TOO_LARGE | FILE_TYPE_NOT_ALLOWED | SERVER_ERROR
  | CHUNK_UPLOAD_FAILED | FILE_INITIALIZATION_FAILED | UNKNOWN
deriving DecidableEq, Repr

/-- One chunk of a file (`ChunkInfo`).  The byte range is `[start, end_)`;
`end_` renders the source's `end` field, which is a reserved word in Lean. -/
structure ChunkInfo where
  partNumber : Nat
  start : Nat
  end_ : Nat
  partSize : Nat
  status : ChunkStatusEnum
  retryCount : Nat
deriving DecidableEq, Repr

/-- A server-reported previously uploaded part (`FilePartInfo`).
`partSize` is optional in the source; `none` models a missing field. -/
structure FilePartInfo where
  etag : String
  partNumber : Nat
  partSize : Option Nat
deriving DecidableEq, Repr

/-- Per-file record (`FileInfo`).  The raw `File` handle and the
`lastUpdated` timestamp carry no verified behaviour and are omitted. -/
structure FileInfo where
  fileId : Nat
  fileName : String
  fileSize : Nat
  uploadedSize : Nat
  progress : Nat
  status : UploadStepEnum
  mimeType : String
  totalChunks : Nat
deriving DecidableEq, Repr

/-- A browser `File` object as consumed by validation: name, byte size and
MIME type (the source's `file.type`). -/
structure BrowserFile where
  name : String
  size : Nat
  type' : String
deriving DecidableEq, Repr

/-! ## Insertion-ordered maps (JS `Map`) and sets (JS `Set`) -/

/-- Association list standing for a JS `Map` keyed by file id. -/
def SMap (α : Type) : Type := List (Nat × α)

instance (α : Type) [DecidableEq α] : DecidableEq (SMap α) :=
  inferInstanceAs (DecidableEq (List (Nat × α)))

/-- `Map.prototype.get`. -/
def mapGet {α : Type} (m : SMap α) (k : Nat) : Option α :=
  (m.find? (fun e => e.1 = k)).map (fun e => e.2)

/-- `Map.prototype.set`: replace in place, else append. -/
def mapSet {α : Type} (m : SMap α) (k : Nat) (v : α) : SMap α :=
  match m with
  | [] => [(k, v)]
  | e :: rest => if e.1 = k then (k, v) :: rest else e :: mapSet rest k v

/-- `Map.prototype.delete`. -/
def mapDel {α : Type} (m : SMap α) (k : Nat) : SMap α :=
  m.filter (fun e => e.1 ≠ k)

/-- `Set.prototype.add` on an insertion-ordered duplicate-free list. -/
def setAdd (l : List Nat) (x : Nat) : List Nat :=
  if x ∈ l then l else l ++ [x]

theorem mapGet_nil {α : Type} (k : Nat) : mapGet ([] : SMap α) k = none := rfl

theorem mapGet_cons {α : Type} (e : Nat × α) (rest : SMap α) (k : Nat) :
    mapGet (e :: rest) k = if e.1 = k then some e.2 else mapGet rest k := by
  simp only [mapGet, List.find?_cons]
  by_cases h : e.1 = k <;> simp [h]

theorem mapDel_cons {α : Type} (e : Nat × α) (rest : SMap α) (k : Nat) :
    mapDel (e :: rest) k =
      if e.1 = k then mapDel rest k else e :: mapDel rest k := by
  by_cases h : e.1 = k <;> simp [mapDel, List.filter_cons, h]

theorem mapGet_mapSet_self {α : Type} (m : SMap α) (k : Nat) (v : α) :
    mapGet (mapSet m k v) k = some v := by
  induction m with
  | nil => simp [mapSet, mapGet_cons]
  | cons e rest ih =>
    by_cases h : e.1 = k <;> simp [mapSet, h, mapGet_cons, ih]

theorem mapGet_mapSet_ne {α : Type} (m : SMap α) (k k' : Nat) (v : α)
    (h : k' ≠ k) : mapGet (mapSet m k v) k' = mapGet m k' := by
  induction m with
  | nil => simp [mapSet, mapGet_cons, mapGet_nil, Ne.symm h]
  | cons e rest ih =>
    by_cases he : e.1 = k
    · subst he
      simp [mapSet, mapGet_cons, Ne.symm h]
    · simp [mapSet, he, mapGet_cons, ih]

theorem mapGet_mapDel_self {α : Type} (m : SMap α) (k : Nat) :
    mapGet (mapDel m k) k = none := by
  induction m with
  | nil => simp [mapDel, mapGet_nil]
  | cons e rest ih =>
    by_cases h : e.1 = k <;> simp [mapDel_cons, h, mapGet_cons, ih]

theorem mapGet_mapDel_ne {α : Type} (m : SMap α) (k k' : Nat)
    (h : k' ≠ k) : mapGet (mapDel m k) k' = mapGet m k' := by
  induction m with
  | nil => simp [mapDel, mapGet_nil]
  | cons e rest ih =>
    by_cases he : e.1 = k
    · subst he
      simp [mapDel_cons, mapGet_cons, Ne.symm h, ih]
    · simp [mapDel_cons, he, mapGet_cons, ih]

/-! ## ChunkManager (src/modules/ChunkManager.ts, enhanced revision)

`ChunkManager.ts` bundles two revisions of the class; the enhanced one
(with `getChunkSize`, `calculateExpectedPartSize`, `validateAndFixPartInfo`
and the tolerant `resumeFromExistingParts`) supersedes the base revision
and is the one embedded here.  The methods shared by both revisions are
textually identical. -/

/-- `Math.ceil(fileSize / chunkSize)` for positive `chunkSize`. -/
def ceilDiv (a b : Nat) : Nat := (a + b - 1) / b

structure ChunkManager where
  chunkQueue : SMap (List ChunkInfo)
  uploadedChunks : SMap (List Nat)
  pendingChunks : SMap (List Nat)
  chunkSize : Nat
deriving DecidableEq

/-- `new ChunkManager(chunkSize)`. -/
def ChunkManager.init (chunkSize : Nat) : ChunkManager :=
  { chunkQueue := [], uploadedChunks := [], pendingChunks := [], chunkSize }

/-- The chunk list built by the loop in `prepareChunkQueue`.  The source
sorts the array by `partNumber` afterwards; the list is already strictly
ascending by construction, so the (stable) sort is the identity and is not
re-modelled. -/
def prepareChunks (chunkSize fileSize : Nat) : List ChunkInfo :=
  let totalChunks := ceilDiv fileSize chunkSize
  (List.range totalChunks).map (fun i =>
    { partNumber := i + 1
      start := i * chunkSize
      end_ := if i = totalChunks - 1 then fileSize else i * chunkSize + chunkSize
      partSize :=
        (if i = totalChunks - 1 then fileSize else i * chunkSize + chunkSize)
          - i * chunkSize
      status := ChunkStatusEnum.waiting
      retryCount := 0 })

/-- `prepareChunkQueue(fileInfo)`: resets the uploaded/pending sets, builds
the queue, and writes `totalChunks` back into the file record. -/
def ChunkManager.prepareChunkQueue (cm : ChunkManager) (fi : FileInfo) :
    ChunkManager × FileInfo :=
  let totalChunks := ceilDiv fi.fileSize cm.chunkSize
  ({ cm with
      uploadedChunks := mapSet cm.uploadedChunks fi.fileId []
      pendingChunks := mapSet cm.pendingChunks fi.fileId []
      chunkQueue := mapSet cm.chunkQueue fi.fileId
        (prepareChunks cm.chunkSize fi.fileSize) },
   { fi with totalChunks := totalChunks })

/-- `getNextChunk(fileId)`: `(this.chunkQueue.get(fileId) || []).shift()`.
A `shift` on the stored array mutates it in place; on the `|| []` fallback
the map is untouched. -/
def ChunkManager.getNextChunk (cm : ChunkManager) (fileId : Nat) :
    Option ChunkInfo × ChunkManager :=
  match mapGet cm.chunkQueue fileId with
  | none => (none, cm)
  | some [] => (none, cm)
  | some (c :: rest) =>
      (some c, { cm with chunkQueue := mapSet cm.chunkQueue fileId rest })

/-- `getRemainingChunkCount(fileId)`. -/
def ChunkManager.getRemainingChunkCount (cm : ChunkManager) (fileId : Nat) : Nat :=
  ((mapGet cm.chunkQueue fileId).getD []).length

/-- `getPendingChunkCount(fileId)`. -/
def ChunkManager.getPendingChunkCount (cm : ChunkManager) (fileId : Nat) : Nat :=
  ((mapGet cm.pendingChunks fileId).getD []).length

/-- `addToPending(fileId, partNumber)`. -/
def ChunkManager.addToPending (cm : ChunkManager) (fileId partNumber : Nat) :
    ChunkManager :=
  let pendingChunks := (mapGet cm.pendingChunks fileId).getD []
  { cm with pendingChunks :=
      mapSet cm.pendingChunks fileId (setAdd pendingChunks partNumber) }

/-- `removeFromPending(fileId, partNumber)`: a no-op when the file has no
pending set. -/
def ChunkManager.removeFromPending (cm : ChunkManager) (fileId partNumber : Nat) :
    ChunkManager :=
  match mapGet cm.pendingChunks fileId with
  | none => cm
  | some pendingChunks =>
      let remaining := pendingChunks.filter (fun n => n ≠ partNumber)
      { cm with pendingChunks := mapSet cm.pendingChunks fileId remaining }

/-- `markChunkCompleted(fileId, partNumber)`. -/
def ChunkManager.markChunkCompleted (cm : ChunkManager) (fileId partNumber : Nat) :
    ChunkManager :=
  let uploaded := setAdd ((mapGet cm.uploadedChunks fileId).getD []) partNumber
  let cm := { cm with uploadedChunks := mapSet cm.uploadedChunks fileId uploaded }
  cm.removeFromPending fileId partNumber

/-- `requeueChunk(fileId, chunkInfo)`: increments `retryCount` and pushes
the chunk back at the FRONT of the queue (`unshift`). -/
def ChunkManager.requeueChunk (cm : ChunkManager) (fileId : Nat)
    (chunkInfo : ChunkInfo) : ChunkManager :=
  let chunks := (mapGet cm.chunkQueue fileId).getD []
  let chunkInfo' := { chunkInfo with retryCount := chunkInfo.retryCount + 1 }
  let cm := { cm with chunkQueue := mapSet cm.chunkQueue fileId (chunkInfo' :: chunks) }
  cm.removeFromPending fileId chunkInfo.partNumber

/-- `calculateUploadedSize(fileInfo)`: per uploaded part,
`start = (partNumber-1)*chunkSize`, `end = Math.min(start+chunkSize, fileSize)`,
summing `end - start` as JS (signed) arithmetic. -/
def ChunkManager.calculateUploadedSize (cm : ChunkManager) (fi : FileInfo) : Int :=
  match mapGet cm.uploadedChunks fi.fileId with
  | none => 0
  | some uploadedChunks =>
      (uploadedChunks.map (fun (partNumber : Nat) =>
        let start : Int := ((partNumber : Int) - 1) * cm.chunkSize
        let end_ : Int := min (start + cm.chunkSize) (fi.fileSize : Int)
        end_ - start)).sum

/-- `isAllChunksCompleted(fileId)`. -/
def ChunkManager.isAllChunksCompleted (cm : ChunkManager) (fileId : Nat) : Bool :=
  ((mapGet cm.chunkQueue fileId).getD []).length = 0 ∧
    ((mapGet cm.pendingChunks fileId).getD []).length = 0

/-- `cleanup(fileId)`. -/
def ChunkManager.cleanup (cm : ChunkManager) (fileId : Nat) : ChunkManager :=
  { cm with
      chunkQueue := mapDel cm.chunkQueue fileId
      uploadedChunks := mapDel cm.uploadedChunks fileId
      pendingChunks := mapDel cm.pendingChunks fileId }

/-- `calculateExpectedPartSize(partNumber, fileSize)` (enhanced revision):
`chunkSize` for non-final parts; for the final part the remaining bytes,
falling back to `chunkSize` when that is not positive. -/
def ChunkManager.calculateExpectedPartSize (cm : ChunkManager)
    (partNumber fileSize : Nat) : Nat :=
  let totalChunks := ceilDiv fileSize cm.chunkSize
  if partNumber = totalChunks then
    let remainingSize : Int := (fileSize : Int) - ((partNumber : Int) - 1) * cm.chunkSize
    if 0 < remainingSize then remainingSize.toNat else cm.chunkSize
  else cm.chunkSize

/-- `validateAndFixPartInfo(part, fileSize)` (enhanced revision): a missing
or non-positive `partSize` is replaced by the expected size. -/
def ChunkManager.validateAndFixPartInfo (cm : ChunkManager) (p : FilePartInfo)
    (fileSize : Nat) : FilePartInfo :=
  match p.partSize with
  | none => { p with partSize := some (cm.calculateExpectedPartSize p.partNumber fileSize) }
  | some s =>
      if s = 0 then
        { p with partSize := some (cm.calculateExpectedPartSize p.partNumber fileSize) }
      else p

/-- Remove the first chunk whose `partNumber` matches
(`findIndex` + `splice(index, 1)` in the source). -/
def removeFirstPart (chunks : List ChunkInfo) (partNumber : Nat) : List ChunkInfo :=
  match chunks with
  | [] => []
  | c :: rest =>
      if c.partNumber = partNumber then rest
      else c :: removeFirstPart rest partNumber

/-- Loop body of the enhanced `resumeFromExistingParts`: mark the part
uploaded and drop it from the waiting queue. -/
def resumeStep (fileId : Nat) (cm : ChunkManager) (p : FilePartInfo) : ChunkManager :=
  let uploaded := setAdd ((mapGet cm.uploadedChunks fileId).getD []) p.partNumber
  let cm := { cm with uploadedChunks := mapSet cm.uploadedChunks fileId uploaded }
  match mapGet cm.chunkQueue fileId with
  | none => cm
  | some chunks =>
      let chunks' := removeFirstPart chunks p.partNumber
      { cm with chunkQueue := mapSet cm.chunkQueue fileId chunks' }

/-- `resumeFromExistingParts(fileInfo, existingParts)` (enhanced revision):
fix part sizes, then bail out unchanged if all etags coincide on more than
one part or if any part number lies outside `[1, ceil(size/chunkSize)]`;
otherwise mark every reported part uploaded and drop it from the queue. -/
def ChunkManager.resumeFromExistingParts (cm : ChunkManager) (fi : FileInfo)
    (existingParts : List FilePartInfo) : ChunkManager :=
  if existingParts = [] then cm
  else
    let validatedParts := existingParts.map
      (fun p => cm.validateAndFixPartInfo p fi.fileSize)
    let hasAllSameEtag :=
      (validatedParts.map (fun p => p.etag)).dedup.length = 1 ∧
        1 < validatedParts.length
    if hasAllSameEtag then cm
    else
      let maxValidPartNumber := ceilDiv fi.fileSize cm.chunkSize
      let invalidParts := validatedParts.filter
        (fun p => p.partNumber < 1 ∨ maxValidPartNumber < p.partNumber)
      if invalidParts ≠ [] then cm
      else
        match mapGet cm.uploadedChunks fi.fileId with
        | none => cm
        | some _ => validatedParts.foldl (resumeStep fi.fileId) cm

/-! ## SpeedLimiter (src/modules/SpeedLimiter.ts)

Timestamps (`Date.now()`, milliseconds) are passed explicitly; token
counts are rationals since refilling adds `timePassed * maxBytesPerSecond`
with `timePassed` in fractional seconds. -/

structure SpeedLimiter where
  maxBytesPerSecond : Rat
  bucket : Rat
  lastRefill : Rat
  enabled : Bool
deriving DecidableEq

/-- `new SpeedLimiter(maxBytesPerSecond, enabled)` at time `now`. -/
def SpeedLimiter.init (maxBytesPerSecond : Rat) (enabled : Bool) (now : Rat) :
    SpeedLimiter :=
  { maxBytesPerSecond, bucket := maxBytesPerSecond, lastRefill := now, enabled }

/-- `setEnabled(enabled)`. -/
def SpeedLimiter.setEnabled (s : SpeedLimiter) (enabled : Bool) : SpeedLimiter :=
  { s with enabled }

/-- `refillBucket()` at time `now`: add `capacity` tokens per elapsed
second, clamped to `capacity`. -/
def SpeedLimiter.refillBucket (s : SpeedLimiter) (now : Rat) : SpeedLimiter :=
  let timePassed := (now - s.lastRefill) / 1000
  if 0 < timePassed then
    { s with
        bucket := min (s.bucket + timePassed * s.maxBytesPerSecond) s.maxBytesPerSecond
        lastRefill := now }
  else s

/-- `requestBytes(bytes)` at time `now`: returns the wait in milliseconds
together with the updated limiter. -/
def SpeedLimiter.requestBytes (s : SpeedLimiter) (bytes now : Rat) :
    Int × SpeedLimiter :=
  if s.enabled = false ∨ s.maxBytesPerSecond ≤ 0 then (0, s)
  else
    let s := s.refillBucket now
    if bytes ≤ s.bucket then (0, { s with bucket := s.bucket - bytes })
    else
      let deficit := bytes - s.bucket
      let waitTime := ⌈deficit / s.maxBytesPerSecond * 1000⌉
      (waitTime, { s with bucket := 0 })

/-! ## FileManager (src/modules/FileManager.ts, enhanced revision)

The enhanced revision is the one exercised by `tests/FileManager.test.ts`
(its `addFiles` rethrows validation errors).  `uuid()` is modelled by the
`nextId` counter.  The enhanced catch block rewrites the error message to
interpolate the file's name and its `formatFileSize`d size; the embedding
records that carried identity as the `fileName`/`fileSize` fields of
`UploaderError` instead of re-modelling the decimal string formatting. -/

structure UploaderError where
  etype : ErrorType
  fileName : Option String
  fileSize : Option Nat
deriving DecidableEq, Repr

structure FileManager where
  fileQueue : List FileInfo
  activeFiles : SMap FileInfo
  maxFileSize : Option Nat
  allowedFileTypes : Option (List String)
  nextId : Nat
deriving DecidableEq

/-- `processAllowedFileTypes(types)`: `"*"` anywhere or an effectively
empty list disables type checking (`undefined`); blank entries are
dropped. -/
def processAllowedFileTypes (types : Option (List String)) : Option (List String) :=
  match types with
  | none => none
  | some ts =>
      if ts = [] then none
      else
        let processedTypes := ts.filter (fun t => ¬ t = "*" ∧ ¬ t.trim = "")
        if "*" ∈ ts ∨ processedTypes = [] then none
        else some processedTypes

/-- `new FileManager(options)`. -/
def FileManager.init (maxFileSize : Option Nat)
    (allowedFileTypes : Option (List String)) : FileManager :=
  { fileQueue := [], activeFiles := [], maxFileSize
    allowedFileTypes := processAllowedFileTypes allowedFileTypes
    nextId := 0 }

/-- `getFileExtension(filename)` (enhanced revision): the lower-cased text
after the last dot, `""` when there is no dot. -/
def getFileExtension (filename : String) : String :=
  let parts := filename.splitOn "."
  if parts.length ≤ 1 then "" else (parts.getLastD "").toLower

/-- `isFileTypeAllowed(fileType, fileName)` (enhanced revision). -/
def FileManager.isFileTypeAllowed (fm : FileManager)
    (fileType fileName : String) : Bool :=
  match fm.allowedFileTypes with
  | none => true
  | some [] => true
  | some ts =>
      let extension := getFileExtension fileName
      ts.any (fun t =>
        if t = "*" then true
        else if t.contains '/' then
          if t = fileType then true
          else
            decide (t.endsWith "/*" ∧
              fileType.startsWith ((t.splitOn "/*").headD ""))
        else
          let normalizedType := t.toLower
          let normalizedExt := extension.toLower
          decide (normalizedType = "." ++ normalizedExt ∨
            normalizedType = normalizedExt))

/-- `validateFile(file)` (enhanced revision): `none` means the file passed;
`some e` is the thrown `UploaderError` (not yet carrying the identity the
catch block adds). -/
def FileManager.validateFile (fm : FileManager) (f : BrowserFile) :
    Option UploaderError :=
  if f.name = "" then
    some { etype := ErrorType.FILE_TYPE_NOT_ALLOWED, fileName := none, fileSize := none }
  else if f.size = 0 then
    some { etype := ErrorType.FILE_TOO_LARGE, fileName := none, fileSize := none }
  else
    let typeRejected :=
      match fm.allowedFileTypes with
      | none => false
      | some [] => false
      | some _ =>
          let fileType := if f.type' = "" then getFileExtension f.name else f.type'
          ¬ fm.isFileTypeAllowed fileType f.name
    if typeRejected then
      some { etype := ErrorType.FILE_TYPE_NOT_ALLOWED, fileName := none, fileSize := none }
    else
      let sizeRejected :=
        match fm.maxFileSize with
        | none => false
        | some m => ¬ m = 0 ∧ m < f.size
      if sizeRejected then
        some { etype := ErrorType.FILE_TOO_LARGE, fileName := none, fileSize := none }
      else none

/-- `createFileInfo`-style record built inline by the enhanced `addFiles`. -/
def mkFileInfo (fileId : Nat) (f : BrowserFile) : FileInfo :=
  { fileId, fileName := f.name, fileSize := f.size, uploadedSize := 0
    progress := 0, status := UploadStepEnum.beforeUpload, mimeType := f.type'
    totalChunks := 0 }

/-- Loop of the enhanced `addFiles`.  A validation failure is enriched with
the file's name and size and rethrown, aborting the batch; queue pushes
already performed persist.  Returns the final manager state together with
either the list of added records or the escaped error. -/
def addFilesAux (fm : FileManager) (files : List BrowserFile)
    (acc : List FileInfo) : FileManager × Except UploaderError (List FileInfo) :=
  match files with
  | [] => (fm, Except.ok acc.reverse)
  | f :: rest =>
      match fm.validateFile f with
      | some e =>
          (fm, Except.error { e with fileName := some f.name, fileSize := some f.size })
      | none =>
          let info := mkFileInfo fm.nextId f
          let fm := { fm with fileQueue := fm.fileQueue ++ [info], nextId := fm.nextId + 1 }
          addFilesAux fm rest (info :: acc)

/-- `addFiles(files)` (enhanced revision). -/
def FileManager.addFiles (fm : FileManager) (files : List BrowserFile) :
    FileManager × Except UploaderError (List FileInfo) :=
  addFilesAux fm files []

/-! ## UploadManager (src/modules/UploadManager.ts)

`UploadManager.ts` drives a FileManager with the base-revision interface
(`setFileActive`, `cleanupFile`, `setFileCompleted`, `completedFiles`),
embedded below as `FileManagerBase`.  Only the state the orchestrator
reads or writes is modelled; callbacks into the network, the worker pool,
the performance monitor and the speed limiter are external effects. -/

structure FileManagerBase where
  fileQueue : List FileInfo
  activeFiles : SMap FileInfo
  completedFiles : SMap FileInfo
deriving DecidableEq

/-- Base `setFileActive(fileInfo)`. -/
def FileManagerBase.setFileActive (fm : FileManagerBase) (fi : FileInfo) :
    FileManagerBase :=
  { fm with activeFiles := mapSet fm.activeFiles fi.fileId fi }

/-- Base `getActiveFile(fileId)`. -/
def FileManagerBase.getActiveFile (fm : FileManagerBase) (fileId : Nat) :
    Option FileInfo :=
  mapGet fm.activeFiles fileId

/-- Base `updateFileStatus(fileId, status)`. -/
def FileManagerBase.updateFileStatus (fm : FileManagerBase) (fileId : Nat)
    (status : UploadStepEnum) : FileManagerBase :=
  match mapGet fm.activeFiles fileId with
  | none => fm
  | some fi =>
      { fm with activeFiles := mapSet fm.activeFiles fileId { fi with status } }

/-- Base `setFileCompleted(fileInfo)`. -/
def FileManagerBase.setFileCompleted (fm : FileManagerBase) (fi : FileInfo) :
    FileManagerBase :=
  { fm with
      activeFiles := mapDel fm.activeFiles fi.fileId
      completedFiles := mapSet fm.completedFiles fi.fileId fi }

/-- Base `cleanupFile(fileId)`. -/
def FileManagerBase.cleanupFile (fm : FileManagerBase) (fileId : Nat) :
    FileManagerBase :=
  { fm with activeFiles := mapDel fm.activeFiles fileId }

/-- Orchestrator state: the file queue/maps, the chunk store, and the
`uploadControllers` map keyed by `fileId-partNumber`.  The configuration
modelled is the callback-free one (no server callbacks injected, worker
pool disabled, speed limiter disabled, monitor disabled), under which
every state change of `processQueue` is synchronous. -/
structure UploadManager where
  fm : FileManagerBase
  cm : ChunkManager
  uploadControllers : List (Nat × Nat)
  maxConcurrentFiles : Nat
  maxConcurrentChunks : Nat
  maxRetries : Nat
  retryDelay : Nat
deriving DecidableEq

/-- Modelled from the spec: `ChunkManager.createChunks` is called by the
orchestrator but absent from `ChunkManager.ts`; per spec §4.1 it builds
the chunk queue, i.e. `prepareChunkQueue`. -/
def UploadManager.createChunks (s : UploadManager) (fi : FileInfo) :
    UploadManager × FileInfo :=
  let (cm, fi') := s.cm.prepareChunkQueue fi
  ({ s with cm }, fi')

/-- Modelled from the spec: `ChunkManager.getNextChunks(fileId, count)` is
absent from `ChunkManager.ts`; per spec §4.1 chunk admission dequeues
waiting chunks, so it shifts up to `count` chunks off the queue. -/
def UploadManager.getNextChunks (s : UploadManager) (fileId count : Nat) :
    List ChunkInfo × UploadManager :=
  match count with
  | 0 => ([], s)
  | count + 1 =>
      match s.cm.getNextChunk fileId with
      | (none, cm) => ([], { s with cm })
      | (some c, cm) =>
          let (rest, s') := UploadManager.getNextChunks { s with cm } fileId count
          (c :: rest, s')

/-- `initFileUpload(fileInfo)` in the callback-free configuration: set the
status, build the chunk queue (`createChunks`), then mark the file
uploading.  `sendFileInfoToServer`/`getFilePartsFromServer` are absent, so
the skip-upload and resume branches are not taken. -/
def UploadManager.initFileUpload (s : UploadManager) (fi : FileInfo) :
    UploadManager :=
  let s := { s with fm := s.fm.updateFileStatus fi.fileId UploadStepEnum.beforeUpload }
  let (s, _) := s.createChunks fi
  { s with fm := s.fm.updateFileStatus fi.fileId UploadStepEnum.upload }

/-- `cleanup(fileId)`: drop the file from the active map, the chunk store,
and every `uploadControllers` entry keyed under it. -/
def UploadManager.cleanup (s : UploadManager) (fileId : Nat) : UploadManager :=
  { s with
      fm := s.fm.cleanupFile fileId
      cm := s.cm.cleanup fileId
      uploadControllers := s.uploadControllers.filter (fun e => e.1 ≠ fileId) }

/-- `completeFileUpload(fileInfo)` in the callback-free configuration
(`sendFileCompleteToServer` absent): mark complete, move the record to
`completedFiles`, release resources.  Its trailing `processQueue()` call
re-runs the admission loop the caller is already in; the fuel-driven loop
below performs those admissions. -/
def UploadManager.completeFileUpload (s : UploadManager) (fi : FileInfo) :
    UploadManager :=
  let fi' := { fi with status := UploadStepEnum.complete }
  let s := { s with fm := (s.fm.updateFileStatus fi.fileId UploadStepEnum.complete).setFileCompleted fi' }
  s.cleanup fi.fileId

/-- `processChunks(fileId)` in the callback-free configuration: finished
files are finalized; otherwise up to `maxConcurrentChunks - pending` chunks
are shifted off the queue and marked pending (`uploadChunk` itself touches
no modelled state when no upload callback is injected). -/
def UploadManager.processChunks (s : UploadManager) (fileId : Nat) :
    UploadManager :=
  match s.fm.getActiveFile fileId with
  | none => s
  | some fi =>
      if ¬ fi.status = UploadStepEnum.upload then s
      else if s.cm.isAllChunksCompleted fileId then s.completeFileUpload fi
      else
        let pendingCount := s.cm.getPendingChunkCount fileId
        if s.maxConcurrentChunks ≤ pendingCount then s
        else
          let (chunks, s') := s.getNextChunks fileId (s.maxConcurrentChunks - pendingCount)
          chunks.foldl
            (fun s c => { s with cm := s.cm.addToPending fileId c.partNumber }) s'

/-- `uploadFile(fileInfo)`: initialize, then start admitting chunks. -/
def UploadManager.uploadFile (s : UploadManager) (fi : FileInfo) : UploadManager :=
  (s.initFileUpload fi).processChunks fi.fileId

/-- The `processQueue()` while-loop, fuelled.  Each admission consumes one
queued file, so `fileQueue.length + 1` fuel always suffices and the fuelled
function agrees with the source's unbounded loop. -/
def processQueueAux : Nat → UploadManager → UploadManager
  | 0, s => s
  | fuel + 1, s =>
      if s.fm.activeFiles.length < s.maxConcurrentFiles then
        match s.fm.fileQueue with
        | [] => s
        | fi :: rest =>
            let s := { s with fm := FileManagerBase.setFileActive { s.fm with fileQueue := rest } fi }
            processQueueAux fuel (s.uploadFile fi)
      else s

/-- `processQueue()`. -/
def UploadManager.processQueue (s : UploadManager) : UploadManager :=
  processQueueAux (s.fm.fileQueue.length + 1) s

/-- `cancelFile(fileId)`: a no-op unless the file is active; otherwise
abort in-flight requests (external), release all state, and re-run the
admission loop. -/
def UploadManager.cancelFile (s : UploadManager) (fileId : Nat) : UploadManager :=
  match s.fm.getActiveFile fileId with
  | none => s
  | some _ => ((s.cleanup fileId).processQueue)

/-- The retry decision of `handleChunkError`:
`if (chunkInfo.retryCount && chunkInfo.retryCount < this.maxRetries)`.
`retryCount` is optional in the source and `0` is falsy, hence the
`Option Nat` domain and the explicit non-zero test. -/
inductive ChunkFailureAction where
  | retry (delayMs : Nat)
  | fileError
deriving DecidableEq, Repr

/-- `handleChunkError`'s branch on a failed chunk: retry after
`retryDelay * retryCount` when `retryCount` is truthy and under the
ceiling, otherwise mark the whole file as failed. -/
def handleChunkErrorAction (retryCount : Option Nat) (maxRetries retryDelay : Nat) :
    ChunkFailureAction :=
  match retryCount with
  | none => ChunkFailureAction.fileError
  | some n =>
      if ¬ n = 0 ∧ n < maxRetries then ChunkFailureAction.retry (retryDelay * n)
      else ChunkFailureAction.fileError

/-! ## Arithmetic facts about `ceilDiv` -/

theorem ceilDiv_eq_mathlib (S C : Nat) : ceilDiv S C = S ⌈/⌉ C := rfl

theorem le_ceilDiv_mul (S C : Nat) (hC : 0 < C) : S ≤ ceilDiv S C * C := by
  have h := le_smul_ceilDiv (b := S) hC
  simpa [ceilDiv_eq_mathlib, smul_eq_mul, Nat.mul_comm] using h

theorem ceilDiv_pos (S C : Nat) (hC : 0 < C) (hS : 0 < S) : 0 < ceilDiv S C := by
  by_contra h
  have h0 : ceilDiv S C = 0 := by omega
  have h2 := le_ceilDiv_mul S C hC
  rw [h0] at h2
  omega

theorem pred_ceilDiv_mul_lt (S C : Nat) (hC : 0 < C) (hS : 0 < S) :
    (ceilDiv S C - 1) * C < S := by
  by_contra h
  push_neg at h
  have hle : ceilDiv S C ≤ ceilDiv S C - 1 := by
    have h2 := (ceilDiv_le_iff_le_smul (a := C) (b := S) hC).2
      (by simpa [smul_eq_mul, Nat.mul_comm] using h)
    simpa [ceilDiv_eq_mathlib] using h2
  have h3 := ceilDiv_pos S C hC hS
  omega

theorem mul_lt_of_lt_ceilDiv (S C i : Nat) (hC : 0 < C) (hS : 0 < S)
    (h : i < ceilDiv S C) : i * C < S := by
  have h1 : i <= ceilDiv S C - 1 := by omega
  calc i * C <= (ceilDiv S C - 1) * C := Nat.mul_le_mul_right C h1
    _ < S := pred_ceilDiv_mul_lt S C hC hS

theorem ceilDiv_cast_ceil (S C : Nat) (hS : 0 < S) (hC : 0 < C) :
    (ceilDiv S C : Int) = ⌈(S : ℚ) / (C : ℚ)⌉ := by
  have hC2 : (0 : ℚ) < C := by exact_mod_cast hC
  have hn : 0 < ceilDiv S C := ceilDiv_pos S C hC hS
  have h1 : (ceilDiv S C - 1) * C < S := pred_ceilDiv_mul_lt S C hC hS
  have h2 : S <= ceilDiv S C * C := le_ceilDiv_mul S C hC
  have hcast : ((ceilDiv S C - 1 : Nat) : ℚ) = (ceilDiv S C : ℚ) - 1 := by
    rw [Nat.cast_sub hn]
    norm_num
  symm
  rw [Int.ceil_eq_iff]
  refine ⟨?_, ?_⟩
  · rw [lt_div_iff₀ hC2]
    push_cast
    rw [show ((ceilDiv S C : ℚ) - 1) = ((ceilDiv S C - 1 : Nat) : ℚ) from hcast.symm]
    exact_mod_cast h1
  · rw [div_le_iff₀ hC2]
    push_cast
    exact_mod_cast h2

/-! ## C1: chunk preparation tiles the file -/

theorem prepareChunks_length (C S : Nat) :
    (prepareChunks C S).length = ceilDiv S C := by
  simp [prepareChunks]

theorem prepareChunks_get? (C S i : Nat) (h : i < ceilDiv S C) :
    (prepareChunks C S).get? i = some
      { partNumber := i + 1
        start := i * C
        end_ := if i = ceilDiv S C - 1 then S else i * C + C
        partSize := (if i = ceilDiv S C - 1 then S else i * C + C) - i * C
        status := ChunkStatusEnum.waiting
        retryCount := 0 } := by
  simp [prepareChunks, List.get?_map, List.get?_range, h]

/-- C1: for every file size S > 0 and chunk size C > 0, `prepareChunkQueue`
produces exactly ceil(S/C) chunks with contiguous 1-based partNumbers
1..ceil(S/C), whose byte ranges [start, end) exactly tile [0, S) with no
gaps or overlaps, each chunk's partSize equals end - start, and the file
record's totalChunks field is set to ceil(S/C). -/
theorem prepareChunkQueue_tiles (S C : Nat) (hS : 0 < S) (hC : 0 < C) :
    ((prepareChunks C S).length : Int) = ⌈(S : ℚ) / (C : ℚ)⌉ ∧
    (prepareChunks C S).map (fun c => c.partNumber) =
      List.range' 1 (prepareChunks C S).length ∧
    (∀ i c, (prepareChunks C S).get? i = some c →
      c.start = i * C ∧ c.end_ = min ((i + 1) * C) S ∧
      c.start < c.end_ ∧ c.partSize = c.end_ - c.start) ∧
    (∀ i c c', (prepareChunks C S).get? i = some c →
      (prepareChunks C S).get? (i + 1) = some c' → c.end_ = c'.start) ∧
    (∀ c, (prepareChunks C S).get? 0 = some c → c.start = 0) ∧
    (∀ c, (prepareChunks C S).get? ((prepareChunks C S).length - 1) = some c →
      c.end_ = S) ∧
    (∀ (cm : ChunkManager) (fi : FileInfo), cm.chunkSize = C → fi.fileSize = S →
      (cm.prepareChunkQueue fi).2.totalChunks = (prepareChunks C S).length) := by
  have hlen := prepareChunks_length C S
  have hn := ceilDiv_pos S C hC hS
  have hget : ∀ i c, (prepareChunks C S).get? i = some c →
      i < ceilDiv S C ∧
      c = { partNumber := i + 1, start := i * C,
            end_ := if i = ceilDiv S C - 1 then S else i * C + C,
            partSize := (if i = ceilDiv S C - 1 then S else i * C + C) - i * C,
            status := ChunkStatusEnum.waiting, retryCount := 0 } := by
    intro i c hc
    obtain ⟨hi0, -⟩ := List.get?_eq_some.1 hc
    have hi : i < ceilDiv S C := by rw [hlen] at hi0; exact hi0
    refine ⟨hi, ?_⟩
    rw [prepareChunks_get? C S i hi] at hc
    exact (Option.some_inj.1 hc).symm
  have hend : ∀ i, i < ceilDiv S C →
      (if i = ceilDiv S C - 1 then S else i * C + C) = min ((i + 1) * C) S := by
    intro i hi
    by_cases hlast : i = ceilDiv S C - 1
    · subst hlast
      have h2 : S ≤ ceilDiv S C * C := le_ceilDiv_mul S C hC
      have h3 : (ceilDiv S C - 1 + 1) * C = ceilDiv S C * C := by
        congr 1
        omega
      rw [if_pos rfl, h3]
      omega
    · have hi2 : i + 1 ≤ ceilDiv S C - 1 := by omega
      have h4 : (i + 1) * C ≤ (ceilDiv S C - 1) * C := Nat.mul_le_mul_right C hi2
      have h5 : (ceilDiv S C - 1) * C < S := pred_ceilDiv_mul_lt S C hC hS
      have hexp : (i + 1) * C = i * C + C := by ring
      rw [if_neg hlast, hexp]
      rw [hexp] at h4
      omega
  refine ⟨?_, ?_, ?_, ?_, ?_, ?_, ?_⟩
  · rw [hlen]
    exact ceilDiv_cast_ceil S C hS hC
  · rw [hlen, List.range'_eq_map_range]
    simp [prepareChunks]
    intro a _
    omega
  · intro i c hc
    obtain ⟨hi, rfl⟩ := hget i c hc
    have he := hend i hi
    have hiS : i * C < S := mul_lt_of_lt_ceilDiv S C i hC hS hi
    refine ⟨rfl, he, ?_, rfl⟩
    rw [he]
    have hexp : (i + 1) * C = i * C + C := by ring
    rw [hexp]
    dsimp only
    refine lt_min_iff.2 ⟨?_, ?_⟩ <;> omega
  · intro i c c' hc hc'
    obtain ⟨hi, rfl⟩ := hget i c hc
    obtain ⟨hi', rfl⟩ := hget (i + 1) c' hc'
    have he := hend i hi
    rw [he]
    have h4 : (i + 1) * C ≤ (ceilDiv S C - 1) * C :=
      Nat.mul_le_mul_right C (by omega)
    have h5 : (ceilDiv S C - 1) * C < S := pred_ceilDiv_mul_lt S C hC hS
    have hexp : (i + 1) * C = i * C + C := by ring
    rw [hexp] at h4 ⊢
    simp only [ChunkInfo.mk.injEq]
    exact min_eq_left (by omega)
  · intro c hc
    obtain ⟨_, rfl⟩ := hget 0 c hc
    simp
  · intro c hc
    rw [hlen] at hc
    obtain ⟨hi, rfl⟩ := hget (ceilDiv S C - 1) c hc
    simp
  · intro cm fi hcm hfi
    simp [ChunkManager.prepareChunkQueue, hcm, hfi, hlen]

/-- Witness for C1 at S = 12 MiB, C = 5 MiB: the three chunks carry
partNumbers 1, 2, 3. -/
theorem prepareChunkQueue_tiles_witness :
    (prepareChunks 5242880 12582912).map (fun c => c.partNumber) =
      List.range' 1 (prepareChunks 5242880 12582912).length :=
  (prepareChunkQueue_tiles 12582912 5242880 (by decide) (by decide)).2.1

/-! ## C10: queries on an unknown file id -/

/-- C10: for every fileId with no chunk state (never prepared or already
cleaned up), the public queries treat it as an empty finished file:
`isAllChunksCompleted` is true, `calculateUploadedSize` is 0, and
`getNextChunk` returns no chunk (and leaves the store untouched). -/
theorem unknownFile_queries (cm : ChunkManager) (fi : FileInfo)
    (hq : mapGet cm.chunkQueue fi.fileId = none)
    (hu : mapGet cm.uploadedChunks fi.fileId = none)
    (hp : mapGet cm.pendingChunks fi.fileId = none) :
    cm.isAllChunksCompleted fi.fileId = true ∧
    cm.calculateUploadedSize fi = 0 ∧
    (cm.getNextChunk fi.fileId).1 = none ∧
    (cm.getNextChunk fi.fileId).2 = cm := by
  refine ⟨?_, ?_, ?_, ?_⟩ <;>
    simp [ChunkManager.isAllChunksCompleted, ChunkManager.calculateUploadedSize,
      ChunkManager.getNextChunk, hq, hu, hp]

/-- Witness for C10: the freshly constructed store knows no file. -/
theorem unknownFile_queries_witness :
    (ChunkManager.init 5242880).isAllChunksCompleted 1 = true ∧
    (ChunkManager.init 5242880).calculateUploadedSize
      ⟨1, "a.txt", 100, 0, 0, UploadStepEnum.beforeUpload, "", 0⟩ = 0 ∧
    ((ChunkManager.init 5242880).getNextChunk 1).1 = none ∧
    ((ChunkManager.init 5242880).getNextChunk 1).2 = ChunkManager.init 5242880 :=
  unknownFile_queries (ChunkManager.init 5242880)
    ⟨1, "a.txt", 100, 0, 0, UploadStepEnum.beforeUpload, "", 0⟩ rfl rfl rfl

/-! ## C8: uploaded size is the sum of the committed tiling sizes -/

theorem uploadedTerm_cast (S C pn : Nat) (hC : 0 < C) (hS : 0 < S)
    (h1 : 1 ≤ pn) (h2 : pn ≤ ceilDiv S C) :
    min (((pn : Int) - 1) * C + C) (S : Int) - ((pn : Int) - 1) * C =
      ((min (pn * C) S - (pn - 1) * C : Nat) : Int) := by
  have hlt : (pn - 1) * C < S :=
    mul_lt_of_lt_ceilDiv S C (pn - 1) hC hS (by omega)
  have hexp : (pn - 1) * C + C = pn * C := by
    cases pn with
    | zero => omega
    | succ m => simp [Nat.succ_sub_one]; ring
  have hcast : ((pn : Int) - 1) * C = (((pn - 1) * C : Nat) : Int) := by
    push_cast [Nat.cast_sub h1]
    ring
  rw [hcast]
  omega

/-- C8: for every prepared file state, `calculateUploadedSize` equals the
sum over exactly the partNumbers marked uploaded of the tiling size
`min(partNumber*chunkSize, fileSize) - (partNumber-1)*chunkSize`, which
is also the `partSize` `prepareChunkQueue` gave that chunk. -/
theorem calculateUploadedSize_sums (cm : ChunkManager) (fi : FileInfo)
    (u : List Nat)
    (hu : mapGet cm.uploadedChunks fi.fileId = some u)
    (hrange : ∀ pn ∈ u, 1 ≤ pn ∧ pn ≤ ceilDiv fi.fileSize cm.chunkSize)
    (hC : 0 < cm.chunkSize) (hS : 0 < fi.fileSize) :
    cm.calculateUploadedSize fi =
      (((u.map (fun pn =>
          min (pn * cm.chunkSize) fi.fileSize - (pn - 1) * cm.chunkSize)).sum : Nat) : Int) ∧
    (∀ pn ∈ u, ∀ c,
      (prepareChunks cm.chunkSize fi.fileSize).get? (pn - 1) = some c →
      c.partSize = min (pn * cm.chunkSize) fi.fileSize - (pn - 1) * cm.chunkSize) := by
  constructor
  · rw [ChunkManager.calculateUploadedSize, hu]
    show (u.map (fun pn : Nat =>
        min (((pn : Int) - 1) * cm.chunkSize + cm.chunkSize) (fi.fileSize : Int)
          - ((pn : Int) - 1) * cm.chunkSize)).sum = _
    clear hu
    induction u with
    | nil => simp
    | cons pn rest ih =>
      have hpn := hrange pn (by simp)
      have hrest : ∀ q ∈ rest, 1 ≤ q ∧ q ≤ ceilDiv fi.fileSize cm.chunkSize :=
        fun q hq => hrange q (by simp [hq])
      simp only [List.map_cons, List.sum_cons]
      rw [ih hrest]
      rw [uploadedTerm_cast fi.fileSize cm.chunkSize pn hC hS hpn.1 hpn.2]
      push_cast
      ring
  · intro pn hpn c hc
    obtain ⟨h1, h2⟩ := hrange pn hpn
    have hi : pn - 1 < ceilDiv fi.fileSize cm.chunkSize := by omega
    rw [prepareChunks_get? cm.chunkSize fi.fileSize (pn - 1) hi] at hc
    obtain rfl := (Option.some_inj.1 hc).symm
    dsimp only
    have hexp : (pn - 1) * cm.chunkSize + cm.chunkSize = pn * cm.chunkSize := by
      cases pn with
      | zero => omega
      | succ m => simp [Nat.succ_sub_one]; ring
    by_cases hlast : pn - 1 = ceilDiv fi.fileSize cm.chunkSize - 1
    · have hS2 : fi.fileSize ≤ ceilDiv fi.fileSize cm.chunkSize * cm.chunkSize :=
        le_ceilDiv_mul fi.fileSize cm.chunkSize hC
      have hpe : pn = ceilDiv fi.fileSize cm.chunkSize := by
        have := ceilDiv_pos fi.fileSize cm.chunkSize hC hS
        omega
      rw [if_pos hlast, hpe]
      omega
    · have hple : pn ≤ ceilDiv fi.fileSize cm.chunkSize - 1 := by omega
      have h4 : pn * cm.chunkSize ≤
          (ceilDiv fi.fileSize cm.chunkSize - 1) * cm.chunkSize :=
        Nat.mul_le_mul_right cm.chunkSize hple
      have h5 : (ceilDiv fi.fileSize cm.chunkSize - 1) * cm.chunkSize < fi.fileSize :=
        pred_ceilDiv_mul_lt fi.fileSize cm.chunkSize hC hS
      rw [if_neg hlast, hexp]
      omega

/-- Witness for C8 at S = 12 MiB, C = 5 MiB with parts 1 and 3 marked
uploaded: the reported uploaded size is 5 MiB + 2 MiB = 7 MiB. -/
theorem calculateUploadedSize_sums_witness :
    (ChunkManager.mk [] [(1, [1, 3])] [] 5242880).calculateUploadedSize
      ⟨1, "a.bin", 12582912, 0, 0, UploadStepEnum.upload, "", 3⟩ = 7340032 := by
  have h := (calculateUploadedSize_sums
    (ChunkManager.mk [] [(1, [1, 3])] [] 5242880)
    ⟨1, "a.bin", 12582912, 0, 0, UploadStepEnum.upload, "", 3⟩
    [1, 3] rfl (by decide) (by decide) (by decide)).1
  rw [h]
  decide

/-! ## C4: dequeue order -/

/-- Chunk-store states reachable through `prepareChunkQueue` and
`getNextChunk` alone (no `requeueChunk`). -/
inductive ChunkOpsNoRequeue : ChunkManager → Prop where
  | init (chunkSize : Nat) : ChunkOpsNoRequeue (ChunkManager.init chunkSize)
  | prep {cm : ChunkManager} (fi : FileInfo) :
      ChunkOpsNoRequeue cm → ChunkOpsNoRequeue (cm.prepareChunkQueue fi).1
  | next {cm : ChunkManager} (fileId : Nat) :
      ChunkOpsNoRequeue cm → ChunkOpsNoRequeue (cm.getNextChunk fileId).2

theorem prepareChunks_pairwise (C S : Nat) :
    (prepareChunks C S).Pairwise (fun a b => a.partNumber < b.partNumber) := by
  rw [prepareChunks]
  refine List.pairwise_map.2 ?_
  have h := List.pairwise_lt_range (ceilDiv S C)
  exact h.imp (fun hab => by dsimp only; omega)

theorem chunkOps_queue_sorted {cm : ChunkManager} (h : ChunkOpsNoRequeue cm) :
    ∀ fileId l, mapGet cm.chunkQueue fileId = some l →
      l.Pairwise (fun a b => a.partNumber < b.partNumber) := by
  induction h with
  | init chunkSize =>
    intro fileId l hl
    simp [ChunkManager.init, mapGet] at hl
  | prep fi _ ih =>
    intro fileId l hl
    by_cases hfid : fileId = fi.fileId
    · subst hfid
      rw [ChunkManager.prepareChunkQueue] at hl
      simp only at hl
      rw [mapGet_mapSet_self] at hl
      obtain rfl := Option.some_inj.1 hl.symm
      exact prepareChunks_pairwise _ _
    · rw [ChunkManager.prepareChunkQueue] at hl
      simp only at hl
      rw [mapGet_mapSet_ne _ _ _ _ hfid] at hl
      exact ih fileId l hl
  | next fileId0 _ ih =>
    intro fileId l hl
    rename_i cm0 _
    rw [ChunkManager.getNextChunk] at hl
    rcases hq : mapGet cm0.chunkQueue fileId0 with - | ll
    · rw [hq] at hl
      exact ih fileId l hl
    · rcases ll with - | ⟨c, rest⟩
      · rw [hq] at hl
        exact ih fileId l hl
      · rw [hq] at hl
        simp only at hl
        by_cases hfid : fileId = fileId0
        · subst hfid
          rw [mapGet_mapSet_self] at hl
          obtain rfl := Option.some_inj.1 hl.symm
          exact ((ih fileId (c :: l) hq).sublist (List.sublist_cons_self c l))
        · rw [mapGet_mapSet_ne _ _ _ _ hfid] at hl
          exact ih fileId l hl

/-- C4 (amended): in every state reachable through `prepareChunkQueue` and
`getNextChunk` alone, `getNextChunk` dequeues the lowest-numbered waiting
chunk of the file.  (`requeueChunk` prepends, so the original claim's
arbitrary interleavings with requeues break this; see the
counterexample.) -/
theorem getNextChunk_dequeues_min {cm : ChunkManager}
    (h : ChunkOpsNoRequeue cm) (fileId : Nat) (c : ChunkInfo)
    (hc : (cm.getNextChunk fileId).1 = some c) :
    ∀ c' ∈ (mapGet cm.chunkQueue fileId).getD [],
      c.partNumber ≤ c'.partNumber := by
  rcases hq : mapGet cm.chunkQueue fileId with - | ll
  · rw [ChunkManager.getNextChunk, hq] at hc
    simp at hc
  · rcases ll with - | ⟨c0, rest⟩
    · rw [ChunkManager.getNextChunk, hq] at hc
      simp at hc
    · rw [ChunkManager.getNextChunk, hq] at hc
      have hceq := Option.some_inj.1 (by simpa using hc)
      have hsorted := chunkOps_queue_sorted h fileId _ hq
      intro c' hc'
      simp only [Option.getD_some, List.mem_cons] at hc'
      rw [← hceq]
      rcases hc' with rfl | hc'
      · exact Nat.le_refl _
      · exact Nat.le_of_lt ((List.pairwise_cons.1 hsorted).1 c' hc')

/-- Witness for C4 at a freshly prepared 3-chunk file: the dequeued chunk
(partNumber 1) has a partNumber no larger than the waiting chunk with
partNumber 2. -/
theorem getNextChunk_dequeues_min_witness :
    (⟨1, 0, 5, 5, ChunkStatusEnum.waiting, 0⟩ : ChunkInfo).partNumber ≤
      (⟨2, 5, 10, 5, ChunkStatusEnum.waiting, 0⟩ : ChunkInfo).partNumber :=
  getNextChunk_dequeues_min
    (ChunkOpsNoRequeue.prep ⟨1, "a", 15, 0, 0, UploadStepEnum.beforeUpload, "", 0⟩
      (ChunkOpsNoRequeue.init 5))
    1 ⟨1, 0, 5, 5, ChunkStatusEnum.waiting, 0⟩ (by decide)
    ⟨2, 5, 10, 5, ChunkStatusEnum.waiting, 0⟩ (by decide)

/-- Counterexample to C4 as stated: prepare a 3-chunk file, dequeue chunks
1 and 2, then requeue chunk 1 followed by chunk 2 (both failed, in that
order).  `requeueChunk` unshifts, so the queue is now [2, 1, 3] and
`getNextChunk` dequeues partNumber 2 although chunk 1 is still waiting. -/
theorem getNextChunk_not_min_after_requeues :
    let fi : FileInfo := ⟨1, "a", 15, 0, 0, UploadStepEnum.beforeUpload, "", 0⟩
    let cm1 := ((ChunkManager.init 5).prepareChunkQueue fi).1
    let r1 := cm1.getNextChunk 1
    let r2 := r1.2.getNextChunk 1
    let cm4 := match r1.1 with
      | some c => r2.2.requeueChunk 1 c
      | none => r2.2
    let cm5 := match r2.1 with
      | some c => cm4.requeueChunk 1 c
      | none => cm4
    ((cm5.getNextChunk 1).1.map (fun c => c.partNumber) = some 2) ∧
      1 ∈ ((mapGet cm5.chunkQueue 1).getD []).map (fun c => c.partNumber) := by
  decide

/-! ## C2 and C3: resumable reconciliation -/

theorem validateAndFixPartInfo_etag (cm : ChunkManager) (p : FilePartInfo)
    (S : Nat) : (cm.validateAndFixPartInfo p S).etag = p.etag := by
  rw [ChunkManager.validateAndFixPartInfo]
  rcases p.partSize with - | s
  · rfl
  · by_cases h : s = 0 <;> simp [h]

theorem validateAndFixPartInfo_partNumber (cm : ChunkManager) (p : FilePartInfo)
    (S : Nat) : (cm.validateAndFixPartInfo p S).partNumber = p.partNumber := by
  rw [ChunkManager.validateAndFixPartInfo]
  rcases p.partSize with - | s
  · rfl
  · by_cases h : s = 0 <;> simp [h]

theorem dedup_length_one_of_all_eq {l : List String} (hne : l ≠ [])
    (hall : ∀ a ∈ l, ∀ b ∈ l, a = b) : l.dedup.length = 1 := by
  rcases l with - | ⟨x, rest⟩
  · exact absurd rfl hne
  · have hx : ∀ a ∈ x :: rest, a = x := fun a ha => hall a ha x (by simp)
    rw [← List.card_toFinset]
    refine Finset.card_eq_one.2 ⟨x, ?_⟩
    ext y
    simp only [List.mem_toFinset, Finset.mem_singleton]
    exact ⟨fun hy => hx y hy, fun hy => hy ▸ by simp⟩

/-- C2: for every prepared file state and non-empty reported part list, if
all reported etags coincide on more than one part, or any reported
partNumber lies outside [1, ceil(size/chunkSize)], then
`resumeFromExistingParts` discards the whole report: the store is left
unchanged (no part marked uploaded, waiting queue untouched). -/
theorem resumeFromExistingParts_rejects (cm : ChunkManager) (fi : FileInfo)
    (parts : List FilePartInfo) (hne : parts ≠ [])
    (hbad : ((∀ p ∈ parts, ∀ q ∈ parts, p.etag = q.etag) ∧ 1 < parts.length) ∨
      (∃ p ∈ parts, p.partNumber < 1 ∨
        ceilDiv fi.fileSize cm.chunkSize < p.partNumber)) :
    cm.resumeFromExistingParts fi parts = cm := by
  rw [ChunkManager.resumeFromExistingParts, if_neg hne]
  have hmapetag : (parts.map (fun p => cm.validateAndFixPartInfo p fi.fileSize)).map
      (fun p => p.etag) = parts.map (fun p => p.etag) := by
    rw [List.map_map]
    exact List.map_congr_left (fun p _ => validateAndFixPartInfo_etag cm p fi.fileSize)
  by_cases hsame :
      ((parts.map (fun p => cm.validateAndFixPartInfo p fi.fileSize)).map
        (fun p => p.etag)).dedup.length = 1 ∧
      1 < (parts.map (fun p => cm.validateAndFixPartInfo p fi.fileSize)).length
  · simp only [hsame, and_self, if_true]
  · simp only [hsame, if_false]
    rcases hbad with ⟨hall, hlen⟩ | ⟨p, hp, hrange⟩
    · exfalso
      apply hsame
      constructor
      · rw [hmapetag]
        apply dedup_length_one_of_all_eq
        · simpa using hne
        · intro a ha b hb
          obtain ⟨pa, hpa, rfl⟩ := List.mem_map.1 ha
          obtain ⟨pb, hpb, rfl⟩ := List.mem_map.1 hb
          exact hall pa hpa pb hpb
      · simpa using hlen
    · have hmem : cm.validateAndFixPartInfo p fi.fileSize ∈
          parts.map (fun p => cm.validateAndFixPartInfo p fi.fileSize) :=
        List.mem_map.2 ⟨p, hp, rfl⟩
      have hinv : (parts.map (fun p => cm.validateAndFixPartInfo p fi.fileSize)).filter
          (fun p => p.partNumber < 1 ∨
            ceilDiv fi.fileSize cm.chunkSize < p.partNumber) ≠ [] := by
        intro hempty
        have h2 := List.filter_eq_nil.1 hempty _ hmem
        rw [validateAndFixPartInfo_partNumber] at h2
        simp only [decide_eq_true_eq] at h2
        exact h2 hrange
      simp only [ne_eq, hinv, not_false_eq_true, if_true]

/-- Witness for C2: two parts both carrying etag "X" are rejected, leaving
a prepared two-chunk store untouched. -/
theorem resumeFromExistingParts_rejects_witness :
    (((ChunkManager.init 5).prepareChunkQueue
        ⟨1, "a", 10, 0, 0, UploadStepEnum.beforeUpload, "", 0⟩).1.resumeFromExistingParts
      ⟨1, "a", 10, 0, 0, UploadStepEnum.beforeUpload, "", 0⟩
      [⟨"X", 1, some 5⟩, ⟨"X", 2, some 5⟩] =
    ((ChunkManager.init 5).prepareChunkQueue
        ⟨1, "a", 10, 0, 0, UploadStepEnum.beforeUpload, "", 0⟩).1) :=
  resumeFromExistingParts_rejects _ _ _ (by decide)
    (Or.inl ⟨by decide, by decide⟩)

theorem setAdd_mem_self (l : List Nat) (x : Nat) : x ∈ setAdd l x := by
  rw [setAdd]
  by_cases h : x ∈ l <;> simp [h]

theorem setAdd_mem_of_mem (l : List Nat) (x y : Nat) (h : y ∈ l) :
    y ∈ setAdd l x := by
  rw [setAdd]
  by_cases hx : x ∈ l <;> simp [hx, h]

theorem resumeStep_uploaded (fileId : Nat) (cm : ChunkManager)
    (p : FilePartInfo) (u : List Nat)
    (hu : mapGet cm.uploadedChunks fileId = some u) :
    mapGet (resumeStep fileId cm p).uploadedChunks fileId =
      some (setAdd u p.partNumber) := by
  rw [resumeStep]
  simp only [hu, Option.getD_some]
  rcases hcq : mapGet cm.chunkQueue fileId with - | chunks <;>
    simp [hcq, mapGet_mapSet_self]

theorem foldl_resumeStep_uploaded (fileId : Nat) (ps : List FilePartInfo) :
    ∀ (cm : ChunkManager) (u : List Nat),
      mapGet cm.uploadedChunks fileId = some u →
      ∃ u', mapGet ((ps.foldl (resumeStep fileId) cm)).uploadedChunks fileId = some u' ∧
        (∀ y ∈ u, y ∈ u') ∧ (∀ p ∈ ps, p.partNumber ∈ u') := by
  induction ps with
  | nil =>
    intro cm u hu
    exact ⟨u, hu, fun y hy => hy, by simp⟩
  | cons p ps ih =>
    intro cm u hu
    have hstep := resumeStep_uploaded fileId cm p u hu
    obtain ⟨u', hu', hkeep, hall⟩ := ih (resumeStep fileId cm p) (setAdd u p.partNumber) hstep
    refine ⟨u', hu', ?_, ?_⟩
    · exact fun y hy => hkeep y (setAdd_mem_of_mem u p.partNumber y hy)
    · intro q hq
      rcases List.mem_cons.1 hq with rfl | hq'
      · exact hkeep q.partNumber (setAdd_mem_self u q.partNumber)
      · exact hall q hq'

/-- C3: a reported part whose size is missing or zero is not rejected by
the (enhanced) `resumeFromExistingParts`: its size is inferred —
`chunkSize` for every non-final partNumber and
`fileSize - (partNumber-1)*chunkSize` for the final one — and, provided
the report passes the etag and range checks, the part is marked uploaded
like any other. -/
theorem resumeFromExistingParts_infers (cm : ChunkManager) (fi : FileInfo)
    (parts : List FilePartInfo) (u : List Nat)
    (hC : 0 < cm.chunkSize) (hS : 0 < fi.fileSize)
    (hdistinct : ¬(((parts.map (fun p => p.etag)).dedup.length = 1) ∧
      1 < parts.length))
    (hrange : ∀ p ∈ parts, 1 ≤ p.partNumber ∧
      p.partNumber ≤ ceilDiv fi.fileSize cm.chunkSize)
    (hu : mapGet cm.uploadedChunks fi.fileId = some u) :
    (∀ p ∈ parts, (p.partSize = none ∨ p.partSize = some 0) →
      (cm.validateAndFixPartInfo p fi.fileSize).partSize =
        some (if p.partNumber = ceilDiv fi.fileSize cm.chunkSize
          then fi.fileSize - (p.partNumber - 1) * cm.chunkSize
          else cm.chunkSize)) ∧
    (∃ u', mapGet (cm.resumeFromExistingParts fi parts).uploadedChunks fi.fileId
        = some u' ∧ ∀ p ∈ parts, p.partNumber ∈ u') := by
  have hinfer : ∀ p ∈ parts, (p.partSize = none ∨ p.partSize = some 0) →
      (cm.validateAndFixPartInfo p fi.fileSize).partSize =
        some (if p.partNumber = ceilDiv fi.fileSize cm.chunkSize
          then fi.fileSize - (p.partNumber - 1) * cm.chunkSize
          else cm.chunkSize) := by
    intro p hp hmiss
    obtain ⟨h1, h2⟩ := hrange p hp
    have hfix : (cm.validateAndFixPartInfo p fi.fileSize).partSize =
        some (cm.calculateExpectedPartSize p.partNumber fi.fileSize) := by
      rw [ChunkManager.validateAndFixPartInfo]
      rcases hmiss with hm | hm <;> rw [hm] <;> simp
    rw [hfix]
    rw [ChunkManager.calculateExpectedPartSize]
    by_cases hlast : p.partNumber = ceilDiv fi.fileSize cm.chunkSize
    · rw [if_pos hlast, if_pos hlast]
      have hlt : (p.partNumber - 1) * cm.chunkSize < fi.fileSize :=
        mul_lt_of_lt_ceilDiv fi.fileSize cm.chunkSize (p.partNumber - 1) hC hS
          (by omega)
      have hcast : ((p.partNumber : Int) - 1) * cm.chunkSize =
          (((p.partNumber - 1) * cm.chunkSize : Nat) : Int) := by
        push_cast [Nat.cast_sub h1]
        ring
      rw [hcast]
      have hpos : (0 : Int) < (fi.fileSize : Int) -
          (((p.partNumber - 1) * cm.chunkSize : Nat) : Int) := by omega
      rw [if_pos hpos]
      congr 1
      omega
    · rw [if_neg hlast, if_neg hlast]
  refine ⟨hinfer, ?_⟩
  rcases hne : parts with - | ⟨p0, rest⟩
  · refine ⟨u, ?_, by simp⟩
    rw [ChunkManager.resumeFromExistingParts]
    simpa using hu
  · rw [← hne]
    rw [ChunkManager.resumeFromExistingParts, if_neg (by rw [hne]; simp)]
    have hmapetag : (parts.map (fun p => cm.validateAndFixPartInfo p fi.fileSize)).map
        (fun p => p.etag) = parts.map (fun p => p.etag) := by
      rw [List.map_map]
      exact List.map_congr_left (fun p _ => validateAndFixPartInfo_etag cm p fi.fileSize)
    have hsame : ¬(((parts.map (fun p => cm.validateAndFixPartInfo p fi.fileSize)).map
        (fun p => p.etag)).dedup.length = 1 ∧
        1 < (parts.map (fun p => cm.validateAndFixPartInfo p fi.fileSize)).length) := by
      rw [hmapetag, List.length_map]
      exact hdistinct
    rw [if_neg hsame]
    have hinv : (parts.map (fun p => cm.validateAndFixPartInfo p fi.fileSize)).filter
        (fun p => p.partNumber < 1 ∨
          ceilDiv fi.fileSize cm.chunkSize < p.partNumber) = [] := by
      refine List.filter_eq_nil.2 ?_
      intro q hq
      obtain ⟨p, hp, rfl⟩ := List.mem_map.1 hq
      obtain ⟨h1, h2⟩ := hrange p hp
      rw [validateAndFixPartInfo_partNumber]
      simp only [decide_eq_true_eq]
      omega
    rw [if_neg (by simpa using hinv)]
    rw [hu]
    obtain ⟨u', hu', -, hall⟩ := foldl_resumeStep_uploaded fi.fileId
      (parts.map (fun p => cm.validateAndFixPartInfo p fi.fileSize)) cm u hu
    refine ⟨u', hu', ?_⟩
    intro p hp
    have := hall (cm.validateAndFixPartInfo p fi.fileSize) (List.mem_map.2 ⟨p, hp, rfl⟩)
    rwa [validateAndFixPartInfo_partNumber] at this

/-- Witness for C3: a 12 MiB file in 5 MiB chunks with reported parts
1 (size missing) and 3 (size zero), distinct etags: part 1 is inferred at
5 MiB, part 3 (final) at 2 MiB, and both are marked uploaded. -/
theorem resumeFromExistingParts_infers_witness :
    (∀ p ∈ ([⟨"e1", 1, none⟩, ⟨"e3", 3, some 0⟩] : List FilePartInfo),
      (p.partSize = none ∨ p.partSize = some 0) →
      ((ChunkManager.mk [(1, prepareChunks 5242880 12582912)] [(1, [])] [(1, [])]
        5242880).validateAndFixPartInfo p 12582912).partSize =
        some (if p.partNumber = ceilDiv 12582912 5242880
          then 12582912 - (p.partNumber - 1) * 5242880
          else 5242880)) ∧
    (∃ u', mapGet ((ChunkManager.mk [(1, prepareChunks 5242880 12582912)] [(1, [])]
        [(1, [])] 5242880).resumeFromExistingParts
        ⟨1, "a.bin", 12582912, 0, 0, UploadStepEnum.beforeUpload, "", 3⟩
        [⟨"e1", 1, none⟩, ⟨"e3", 3, some 0⟩]).uploadedChunks 1 = some u' ∧
      ∀ p ∈ ([⟨"e1", 1, none⟩, ⟨"e3", 3, some 0⟩] : List FilePartInfo),
        p.partNumber ∈ u') :=
  resumeFromExistingParts_infers
    (ChunkManager.mk [(1, prepareChunks 5242880 12582912)] [(1, [])] [(1, [])] 5242880)
    ⟨1, "a.bin", 12582912, 0, 0, UploadStepEnum.beforeUpload, "", 3⟩
    [⟨"e1", 1, none⟩, ⟨"e3", 3, some 0⟩] []
    (by decide) (by decide) (by decide) (by decide) rfl

/-! ## C5: token-bucket limiter -/

/-- C5: for an enabled limiter with positive capacity, `requestBytes`
refills first (at capacity tokens/sec, clamped to capacity); if the
refilled bucket covers the request it debits and returns zero wait,
otherwise it returns `ceil((bytes - bucket)/capacity * 1000)` ms and
zeroes the bucket.  Once disabled, every request returns zero wait.  With
capacity 1000 B/s and a full bucket, a first `requestBytes(1000)` waits
0 ms and an immediate second one waits 1000 ms. -/
theorem requestBytes_spec :
    (∀ (s : SpeedLimiter) (bytes now : Rat),
      s.enabled = true → 0 < s.maxBytesPerSecond →
      s.bucket ≤ s.maxBytesPerSecond → s.lastRefill ≤ now →
      ((s.refillBucket now).bucket =
        min (s.bucket + (now - s.lastRefill) / 1000 * s.maxBytesPerSecond)
          s.maxBytesPerSecond) ∧
      (bytes ≤ (s.refillBucket now).bucket →
        s.requestBytes bytes now =
          (0, { s.refillBucket now with
                  bucket := (s.refillBucket now).bucket - bytes })) ∧
      ((s.refillBucket now).bucket < bytes →
        s.requestBytes bytes now =
          (⌈(bytes - (s.refillBucket now).bucket) / s.maxBytesPerSecond * 1000⌉,
            { s.refillBucket now with bucket := 0 }))) ∧
    (∀ (s : SpeedLimiter) (bytes now : Rat),
      ((s.setEnabled false).requestBytes bytes now).1 = 0) ∧
    ((SpeedLimiter.init 1000 true 0).requestBytes 1000 0).1 = 0 ∧
    (((SpeedLimiter.init 1000 true 0).requestBytes 1000 0).2.requestBytes 1000 0).1
      = 1000 := by
  have hmain : ∀ (s : SpeedLimiter) (bytes now : Rat),
      s.enabled = true → 0 < s.maxBytesPerSecond →
      s.bucket ≤ s.maxBytesPerSecond → s.lastRefill ≤ now →
      ((s.refillBucket now).bucket =
        min (s.bucket + (now - s.lastRefill) / 1000 * s.maxBytesPerSecond)
          s.maxBytesPerSecond) ∧
      (bytes ≤ (s.refillBucket now).bucket →
        s.requestBytes bytes now =
          (0, { s.refillBucket now with
                  bucket := (s.refillBucket now).bucket - bytes })) ∧
      ((s.refillBucket now).bucket < bytes →
        s.requestBytes bytes now =
          (⌈(bytes - (s.refillBucket now).bucket) / s.maxBytesPerSecond * 1000⌉,
            { s.refillBucket now with bucket := 0 })) := by
    intro s bytes now hen hpos hbmax hlast
    have hnotdis : ¬(s.enabled = false ∨ s.maxBytesPerSecond ≤ 0) := by
      push_neg
      exact ⟨by simp [hen], hpos⟩
    refine ⟨?_, ?_, ?_⟩
    · rw [SpeedLimiter.refillBucket]
      by_cases htp : 0 < (now - s.lastRefill) / 1000
      · rw [if_pos htp]
      · rw [if_neg htp]
        have hz : (now - s.lastRefill) / 1000 = 0 := by
          have h0 : 0 ≤ (now - s.lastRefill) / 1000 :=
            div_nonneg (sub_nonneg.2 hlast) (by norm_num)
          exact le_antisymm (not_lt.1 htp) h0
        rw [hz]
        simp [min_eq_left hbmax]
    · intro hle
      rw [SpeedLimiter.requestBytes, if_neg hnotdis, if_pos hle]
    · intro hlt
      have hmaxeq : (s.refillBucket now).maxBytesPerSecond = s.maxBytesPerSecond := by
        rw [SpeedLimiter.refillBucket]
        split <;> rfl
      rw [SpeedLimiter.requestBytes, if_neg hnotdis, if_neg (not_le.2 hlt), hmaxeq]
      simp [hmaxeq]
  refine ⟨hmain, ?_, ?_, ?_⟩
  · intro s bytes now
    have h : (s.setEnabled false).enabled = false := rfl
    rw [SpeedLimiter.requestBytes, if_pos (Or.inl h)]
  · norm_num [SpeedLimiter.requestBytes, SpeedLimiter.refillBucket, SpeedLimiter.init]
  · norm_num [SpeedLimiter.requestBytes, SpeedLimiter.refillBucket, SpeedLimiter.init]

/-- Witness for C5: a freshly constructed enabled 1000 B/s limiter at time
0, asked for 500 bytes, debits and waits 0 ms. -/
theorem requestBytes_spec_witness :
    (SpeedLimiter.init 1000 true 0).requestBytes 500 0 =
      (0, { (SpeedLimiter.init 1000 true 0).refillBucket 0 with
              bucket := ((SpeedLimiter.init 1000 true 0).refillBucket 0).bucket - 500 }) :=
  (requestBytes_spec.1 (SpeedLimiter.init 1000 true 0) 500 0 rfl (by decide)
    (by decide) (by decide)).2.1
    (by simp [SpeedLimiter.init, SpeedLimiter.refillBucket]; decide)

/-! ## C6: first chunk failure is terminal (code bug) -/

/-- C6 (evaluating the code at the failing input): every chunk built by
`prepareChunkQueue` starts with `retryCount` 0, and the branch condition
of `handleChunkError` — `chunkInfo.retryCount && chunkInfo.retryCount <
this.maxRetries` — is falsy at 0 (and at a missing retryCount), so the
very first failure of a fresh chunk takes the terminal file-error branch
under the default `maxRetries` 3 / `retryDelay` 1000 instead of being
requeued and retried; `requeueChunk`, which would have produced
retryCount 1 (under the ceiling), is never reached. -/
theorem handleChunkError_first_failure_terminal :
    ((prepareChunks 5242880 12582912).map (fun c => c.retryCount)).all
      (fun n => n == 0) = true ∧
    handleChunkErrorAction (some 0) 3 1000 = ChunkFailureAction.fileError ∧
    handleChunkErrorAction none 3 1000 = ChunkFailureAction.fileError ∧
    (0 : Nat) < 3 := by
  refine ⟨by decide, rfl, rfl, by decide⟩

/-! ## C7: addFiles validation and queueing -/

/-- The records the enhanced `addFiles` builds for a passing batch
starting at a given id-counter value. -/
def addedInfos (nextId : Nat) (files : List BrowserFile) : List FileInfo :=
  match files with
  | [] => []
  | f :: rest => mkFileInfo nextId f :: addedInfos (nextId + 1) rest

theorem validateFile_config_only (fm : FileManager) (q : List FileInfo)
    (n : Nat) (f : BrowserFile) :
    FileManager.validateFile { fm with fileQueue := q, nextId := n } f =
      fm.validateFile f := rfl

theorem addFilesAux_ok : ∀ (files : List BrowserFile) (fm : FileManager)
    (acc : List FileInfo), (∀ f ∈ files, fm.validateFile f = none) →
    addFilesAux fm files acc =
      ({ fm with
          fileQueue := fm.fileQueue ++ addedInfos fm.nextId files
          nextId := fm.nextId + files.length },
        Except.ok (acc.reverse ++ addedInfos fm.nextId files)) := by
  intro files
  induction files with
  | nil =>
    intro fm acc _
    cases fm
    simp [addFilesAux, addedInfos]
  | cons f rest ih =>
    intro fm acc hval
    have hf : fm.validateFile f = none := hval f (by simp)
    simp only [addFilesAux, hf]
    rw [ih { fm with
        fileQueue := fm.fileQueue ++ [mkFileInfo fm.nextId f]
        nextId := fm.nextId + 1 }
      (mkFileInfo fm.nextId f :: acc) (fun g hg => hval g (by simp [hg]))]
    simp only [validateFile_config_only]
    simp [addedInfos, List.append_assoc]
    omega

theorem addFilesAux_error : ∀ (pre : List BrowserFile) (fm : FileManager)
    (acc : List FileInfo) (bad : BrowserFile) (post : List BrowserFile)
    (e : UploaderError), (∀ f ∈ pre, fm.validateFile f = none) →
    fm.validateFile bad = some e →
    addFilesAux fm (pre ++ bad :: post) acc =
      ({ fm with
          fileQueue := fm.fileQueue ++ addedInfos fm.nextId pre
          nextId := fm.nextId + pre.length },
        Except.error { e with fileName := some bad.name, fileSize := some bad.size }) := by
  intro pre
  induction pre with
  | nil =>
    intro fm acc bad post e _ hbad
    cases fm
    simp only [List.nil_append, addFilesAux]
    rw [hbad]
    simp [addedInfos]
  | cons f rest ih =>
    intro fm acc bad post e hval hbad
    have hf : fm.validateFile f = none := hval f (by simp)
    simp only [List.cons_append, addFilesAux, hf, List.append_eq]
    rw [ih { fm with
        fileQueue := fm.fileQueue ++ [mkFileInfo fm.nextId f]
        nextId := fm.nextId + 1 }
      (mkFileInfo fm.nextId f :: acc) bad post e
      (fun g hg => hval g (by simp [hg])) hbad]
    simp [addedInfos, List.append_assoc]
    omega

/-- C7 (amended): in the enhanced FileManager, a file failing validation
is rejected with a typed error carrying its name and size and is never
queued, and the batch is aborted there (`addFiles` rethrows): the passing
files before the failure are appended FIFO with fresh consecutive ids,
while the files from the failure on are not processed and no list is
returned.  When every file passes, all are appended FIFO with fresh
distinct ids and returned in order. -/
theorem addFiles_spec (fm : FileManager) :
    (∀ files, (∀ f ∈ files, fm.validateFile f = none) →
      fm.addFiles files =
        ({ fm with
            fileQueue := fm.fileQueue ++ addedInfos fm.nextId files
            nextId := fm.nextId + files.length },
          Except.ok (addedInfos fm.nextId files))) ∧
    (∀ pre bad post e, (∀ f ∈ pre, fm.validateFile f = none) →
      fm.validateFile bad = some e →
      fm.addFiles (pre ++ bad :: post) =
        ({ fm with
            fileQueue := fm.fileQueue ++ addedInfos fm.nextId pre
            nextId := fm.nextId + pre.length },
          Except.error { e with
            fileName := some bad.name
            fileSize := some bad.size })) ∧
    (∀ n files, (addedInfos n files).map (fun f => f.fileId) =
      List.range' n files.length) := by
  refine ⟨?_, ?_, ?_⟩
  · intro files hval
    rw [FileManager.addFiles, addFilesAux_ok files fm [] hval]
    simp
  · intro pre bad post e hval hbad
    rw [FileManager.addFiles, addFilesAux_error pre fm [] bad post e hval hbad]
  · intro n files
    induction files generalizing n with
    | nil => simp [addedInfos]
    | cons f rest ih => simp [addedInfos, mkFileInfo, List.range', ih]

/-- Witness for C7: with a 10-byte limit, a passing file, then an
oversized one, then another passing one: the batch aborts at the oversized
file with a typed error carrying its name and size, and only the first
file was queued. -/
theorem addFiles_spec_witness :
    (FileManager.init (some 10) none).addFiles
        [⟨"g1.txt", 5, "text/plain"⟩, ⟨"big.txt", 20, "text/plain"⟩,
          ⟨"g2.txt", 5, "text/plain"⟩] =
      ({ FileManager.init (some 10) none with
          fileQueue := (FileManager.init (some 10) none).fileQueue ++
            addedInfos (FileManager.init (some 10) none).nextId
              [⟨"g1.txt", 5, "text/plain"⟩]
          nextId := (FileManager.init (some 10) none).nextId + 1 },
        Except.error ⟨ErrorType.FILE_TOO_LARGE, some "big.txt", some 20⟩) :=
  (addFiles_spec (FileManager.init (some 10) none)).2.1
    [⟨"g1.txt", 5, "text/plain"⟩] ⟨"big.txt", 20, "text/plain"⟩
    [⟨"g2.txt", 5, "text/plain"⟩] ⟨ErrorType.FILE_TOO_LARGE, none, none⟩
    (by decide) (by decide)

/-- Counterexample to C7 as stated: in the same batch, the passing file
"g2.txt" comes after the failing "big.txt"; `addFiles` rethrows, "g2.txt"
is never appended to the queue, and no list of added files is returned. -/
theorem addFiles_aborts_counterexample :
    (((FileManager.init (some 10) none).addFiles
        [⟨"g1.txt", 5, "text/plain"⟩, ⟨"big.txt", 20, "text/plain"⟩,
          ⟨"g2.txt", 5, "text/plain"⟩]).1.fileQueue.map (fun f => f.fileName)
      = ["g1.txt"]) ∧
    (((FileManager.init (some 10) none).addFiles
        [⟨"g1.txt", 5, "text/plain"⟩, ⟨"big.txt", 20, "text/plain"⟩,
          ⟨"g2.txt", 5, "text/plain"⟩]).2 =
      Except.error ⟨ErrorType.FILE_TOO_LARGE, some "big.txt", some 20⟩) := by
  exact ⟨rfl, rfl⟩

/-! ## C9: cancelFile is idempotent -/

theorem mapGet_mapDel_none {α : Type} (m : SMap α) (k fid : Nat)
    (h : mapGet m fid = none) : mapGet (mapDel m k) fid = none := by
  by_cases hk : fid = k
  · subst hk
    exact mapGet_mapDel_self m fid
  · rw [mapGet_mapDel_ne m k fid hk]
    exact h

theorem updateFileStatus_none (fm : FileManagerBase) (k : Nat)
    (st : UploadStepEnum) (fid : Nat)
    (h : mapGet fm.activeFiles fid = none) :
    mapGet (fm.updateFileStatus k st).activeFiles fid = none := by
  rw [FileManagerBase.updateFileStatus]
  rcases hk : mapGet fm.activeFiles k with - | fi
  · exact h
  · have hne : fid ≠ k := by
      intro hcontra
      rw [hcontra, hk] at h
      cases h
    simp only
    rw [mapGet_mapSet_ne _ _ _ _ hne]
    exact h

theorem updateFileStatus_queue (fm : FileManagerBase) (k : Nat)
    (st : UploadStepEnum) :
    (fm.updateFileStatus k st).fileQueue = fm.fileQueue := by
  rw [FileManagerBase.updateFileStatus]
  rcases mapGet fm.activeFiles k with - | fi <;> rfl

theorem getNextChunks_fm : ∀ (n : Nat) (s : UploadManager) (fid : Nat),
    (s.getNextChunks fid n).2.fm = s.fm := by
  intro n
  induction n with
  | zero => intro s fid; rfl
  | succ n ih =>
    intro s fid
    rw [UploadManager.getNextChunks]
    rcases h : s.cm.getNextChunk fid with ⟨co, cm⟩
    rcases co with - | c
    · rfl
    · simp only
      exact ih { s with cm } fid

theorem foldl_addToPending_fm (fid : Nat) :
    ∀ (l : List ChunkInfo) (s : UploadManager),
      (l.foldl (fun s c => { s with cm := s.cm.addToPending fid c.partNumber }) s).fm
        = s.fm := by
  intro l
  induction l with
  | nil => intro s; rfl
  | cons c rest ih =>
    intro s
    rw [List.foldl_cons]
    exact ih _

theorem completeFileUpload_none (s : UploadManager) (fi : FileInfo) (fid : Nat)
    (h : mapGet s.fm.activeFiles fid = none) :
    mapGet (s.completeFileUpload fi).fm.activeFiles fid = none := by
  rw [UploadManager.completeFileUpload]
  simp only [UploadManager.cleanup, FileManagerBase.cleanupFile,
    FileManagerBase.setFileCompleted]
  apply mapGet_mapDel_none
  apply mapGet_mapDel_none
  exact updateFileStatus_none s.fm fi.fileId UploadStepEnum.complete fid h

theorem completeFileUpload_queue (s : UploadManager) (fi : FileInfo) :
    (s.completeFileUpload fi).fm.fileQueue = s.fm.fileQueue := by
  rw [UploadManager.completeFileUpload]
  simp only [UploadManager.cleanup, FileManagerBase.cleanupFile,
    FileManagerBase.setFileCompleted]
  exact updateFileStatus_queue s.fm fi.fileId UploadStepEnum.complete

theorem processChunks_none (s : UploadManager) (fid0 fid : Nat)
    (h : mapGet s.fm.activeFiles fid = none) :
    mapGet (s.processChunks fid0).fm.activeFiles fid = none := by
  rw [UploadManager.processChunks]
  rcases ha : s.fm.getActiveFile fid0 with - | fi
  · exact h
  · dsimp only
    by_cases hst : ¬ fi.status = UploadStepEnum.upload
    · rw [if_pos hst]
      exact h
    · rw [if_neg hst]
      by_cases hcomp : s.cm.isAllChunksCompleted fid0
      · rw [if_pos hcomp]
        exact completeFileUpload_none s fi fid h
      · rw [if_neg hcomp]
        by_cases hpend : s.maxConcurrentChunks ≤ s.cm.getPendingChunkCount fid0
        · rw [if_pos hpend]
          exact h
        · rw [if_neg hpend]
          rcases hnc : s.getNextChunks fid0
              (s.maxConcurrentChunks - s.cm.getPendingChunkCount fid0) with ⟨chunks, s2⟩
          dsimp only
          rw [foldl_addToPending_fm]
          have hfm : s2.fm = s.fm := by
            have h2 := getNextChunks_fm
              (s.maxConcurrentChunks - s.cm.getPendingChunkCount fid0) s fid0
            rw [hnc] at h2
            exact h2
          rw [hfm]
          exact h

theorem processChunks_queue (s : UploadManager) (fid0 : Nat) :
    (s.processChunks fid0).fm.fileQueue = s.fm.fileQueue := by
  rw [UploadManager.processChunks]
  rcases ha : s.fm.getActiveFile fid0 with - | fi
  · rfl
  · dsimp only
    by_cases hst : ¬ fi.status = UploadStepEnum.upload
    · rw [if_pos hst]
    · rw [if_neg hst]
      by_cases hcomp : s.cm.isAllChunksCompleted fid0
      · rw [if_pos hcomp]
        exact completeFileUpload_queue s fi
      · rw [if_neg hcomp]
        by_cases hpend : s.maxConcurrentChunks ≤ s.cm.getPendingChunkCount fid0
        · rw [if_pos hpend]
        · rw [if_neg hpend]
          rcases hnc : s.getNextChunks fid0
              (s.maxConcurrentChunks - s.cm.getPendingChunkCount fid0) with ⟨chunks, s2⟩
          dsimp only
          rw [foldl_addToPending_fm]
          have hfm : s2.fm = s.fm := by
            have h2 := getNextChunks_fm
              (s.maxConcurrentChunks - s.cm.getPendingChunkCount fid0) s fid0
            rw [hnc] at h2
            exact h2
          rw [hfm]

theorem uploadFile_none (s : UploadManager) (fi : FileInfo) (fid : Nat)
    (h : mapGet s.fm.activeFiles fid = none) :
    mapGet (s.uploadFile fi).fm.activeFiles fid = none := by
  rw [UploadManager.uploadFile]
  apply processChunks_none
  rw [UploadManager.initFileUpload]
  simp only [UploadManager.createChunks]
  apply updateFileStatus_none
  exact updateFileStatus_none s.fm fi.fileId UploadStepEnum.beforeUpload fid h

theorem uploadFile_queue (s : UploadManager) (fi : FileInfo) :
    (s.uploadFile fi).fm.fileQueue = s.fm.fileQueue := by
  rw [UploadManager.uploadFile]
  rw [processChunks_queue]
  rw [UploadManager.initFileUpload]
  simp only [UploadManager.createChunks]
  rw [updateFileStatus_queue]
  rw [updateFileStatus_queue]

theorem processQueueAux_none : ∀ (fuel : Nat) (s : UploadManager) (fid : Nat),
    mapGet s.fm.activeFiles fid = none →
    (∀ fi ∈ s.fm.fileQueue, fi.fileId ≠ fid) →
    mapGet (processQueueAux fuel s).fm.activeFiles fid = none := by
  intro fuel
  induction fuel with
  | zero => intro s fid h _; exact h
  | succ fuel ih =>
    intro s fid h hq
    rw [processQueueAux]
    by_cases hcap : s.fm.activeFiles.length < s.maxConcurrentFiles
    · rw [if_pos hcap]
      rcases hque : s.fm.fileQueue with - | ⟨fi, rest⟩
      · exact h
      · simp only
        apply ih
        · apply uploadFile_none
          simp only [FileManagerBase.setFileActive]
          rw [mapGet_mapSet_ne _ _ _ _ (Ne.symm (hq fi (by rw [hque]; simp)))]
          exact h
        · intro g hg
          rw [uploadFile_queue] at hg
          simp only [FileManagerBase.setFileActive] at hg
          exact hq g (by rw [hque]; simp [hg])
    · rw [if_neg hcap]
      exact h

theorem cancelFile_not_active (s : UploadManager) (fid : Nat)
    (h : mapGet s.fm.activeFiles fid = none) : s.cancelFile fid = s := by
  rw [UploadManager.cancelFile, FileManagerBase.getActiveFile, h]

/-- C9: cancelling a file twice is a no-op the second time: provided the
file id is not also sitting in the waiting file queue (ids are unique in
every reachable state), the second `cancelFile` call leaves the
orchestrator state — active files, chunk store, abort controllers —
exactly as the first call left it. -/
theorem cancelFile_idempotent (s : UploadManager) (fid : Nat)
    (hq : ∀ fi ∈ s.fm.fileQueue, fi.fileId ≠ fid) :
    (s.cancelFile fid).cancelFile fid = s.cancelFile fid := by
  rcases hact : mapGet s.fm.activeFiles fid with - | fi
  · have h1 : s.cancelFile fid = s := cancelFile_not_active s fid hact
    rw [h1]
    exact h1
  · have h1 : s.cancelFile fid = (s.cleanup fid).processQueue := by
      rw [UploadManager.cancelFile, FileManagerBase.getActiveFile, hact]
    have h2 : mapGet ((s.cleanup fid).processQueue).fm.activeFiles fid = none := by
      rw [UploadManager.processQueue]
      apply processQueueAux_none
      · simp only [UploadManager.cleanup, FileManagerBase.cleanupFile]
        exact mapGet_mapDel_self _ _
      · intro g hg
        exact hq g hg
    rw [h1]
    exact cancelFile_not_active _ fid h2

/-- Witness for C9: one active file, empty queue; the second cancel call
returns the state of the first unchanged. -/
theorem cancelFile_idempotent_witness :
    ((UploadManager.mk
        ⟨[], [(1, ⟨1, "a", 10, 0, 0, UploadStepEnum.upload, "", 2⟩)], []⟩
        (ChunkManager.mk [(1, [])] [(1, [1, 2])] [(1, [])] 5) [(1, 1)] 3 3 3
        1000).cancelFile 1).cancelFile 1 =
      (UploadManager.mk
        ⟨[], [(1, ⟨1, "a", 10, 0, 0, UploadStepEnum.upload, "", 2⟩)], []⟩
        (ChunkManager.mk [(1, [])] [(1, [1, 2])] [(1, [])] 5) [(1, 1)] 3 3 3
        1000).cancelFile 1 :=
  cancelFile_idempotent _ 1 (by simp)
